import Mathlib

/-!
Shallow embedding of `src/utilities/collection-utils.ts` from
AndcultureCode.JavaScript.Core.

A `SequenceLike` value in the TypeScript source is either a plain JS
array or an `Immutable.List`; absent inputs (`null`/`undefined`) are
modelled with `Option`.  JS numbers used as lengths/indices are
modelled as `Int` (the sentinel `-1` and negative indices matter).
JS `===` on projected values is modelled by decidable equality and
JS strings by Lean `String`, with `toLowerCase` modelled character-wise.
-/

namespace CollectionUtils

/-- The two runtime representations dispatched on by the source:
a plain `Array` or an `Immutable.List`. -/
inductive SeqLike (α : Type) where
  | arr (data : List α)
  | ilist (data : List α)
deriving DecidableEq

/-- The underlying element sequence of either representation. -/
def SeqLike.toList {α : Type} : SeqLike α → List α
  | .arr l => l
  | .ilist l => l

/-- `_length` from collection-utils.ts: `-1` when the argument is
`null`/`undefined`, `.size` for an `Immutable.List`, `.length` for
an array. -/
def length {α : Type} (a : Option (SeqLike α)) : Int :=
  match a with
  | none => -1
  | some (.ilist l) => (l.length : Int)
  | some (.arr l) => (l.length : Int)

/-- `_isEmpty` from collection-utils.ts: a `forEach` loop over the
variadic arguments, starting from `isEmpty = true`, skipping absent
arguments, and setting the flag to `false` on any argument whose
`size`/`length` is nonzero. -/
def isEmpty {α : Type} (collections : List (Option (SeqLike α))) : Bool :=
  collections.foldl
    (fun acc collection =>
      match collection with
      | none => acc
      | some (.ilist l) => if l.length ≠ 0 then false else acc
      | some (.arr l) => if l.length ≠ 0 then false else acc)
    true

/-- `_hasValues` from collection-utils.ts: a `forEach` loop starting
from `hasValues = false`, setting the flag on any argument for which
a one-argument `_isEmpty` call returns `false`. -/
def hasValues {α : Type} (collections : List (Option (SeqLike α))) : Bool :=
  collections.foldl
    (fun acc collection =>
      if !(isEmpty [collection]) then true else acc)
    false

/-- `_isNotEmpty` from collection-utils.ts: the negation of `_isEmpty`. -/
def isNotEmpty {α : Type} (collections : List (Option (SeqLike α))) : Bool :=
  !(isEmpty collections)

/-- `_equalsBy` from collection-utils.ts: null checks, then a length
comparison through `_length`, then the symmetric double containment
scan with `some` on projected values. -/
def equalsBy {α V : Type} [DecidableEq V] (selector : α → V)
    (array1 array2 : Option (SeqLike α)) : Bool :=
  match array1 with
  | none => array2.isNone
  | some a1 =>
    match array2 with
    | none => false
    | some a2 =>
      if length (some a1) ≠ length (some a2) then false
      else
        let hasDifferingValues :=
          (a1.toList.any fun s =>
            !(a2.toList.any fun ss => decide (selector s = selector ss))) ||
          (a2.toList.any fun s =>
            !(a1.toList.any fun ss => decide (selector s = selector ss)))
        !hasDifferingValues

/-- `_removeElementAt` from collection-utils.ts: out-of-range indices
(negative, or strictly greater than the length) return the source
itself; otherwise a copy with `splice(index, 1)` applied, i.e. the
element at `index` (if any) removed. -/
def removeElementAt {α : Type} (source : List α) (index : Int) : List α :=
  if index < 0 ∨ (source.length : Int) < index then source
  else source.take index.toNat ++ source.drop (index.toNat + 1)

/-- `_replaceElementAt` from collection-utils.ts: empty source or
negative index returns the source; a one-element source returns
`[value]`; `index === source.length - 1` returns `slice(0, index)`
followed by `value`; otherwise `slice(0, index)`, `value`,
`slice(index + 1)`. -/
def replaceElementAt {α : Type} (source : List α) (index : Int) (value : α) :
    List α :=
  if source.length = 0 ∨ index < 0 then source
  else if source.length = 1 then [value]
  else if index = (source.length : Int) - 1 then
    source.take index.toNat ++ [value]
  else
    source.take index.toNat ++ value :: source.drop (index.toNat + 1)

/-- Character-wise model of JS `String.prototype.toLowerCase`. -/
def strToLower (s : String) : String :=
  ⟨s.data.map Char.toLower⟩

/-- Lexicographic comparison of character sequences by code point,
modelling JS `<` on strings (UTF-16 code-unit order agrees with code
point order on the basic multilingual plane). -/
def charsLt : List Char → List Char → Bool
  | _, [] => false
  | [], _ :: _ => true
  | a :: as, b :: bs =>
    if a.toNat < b.toNat then true
    else if b.toNat < a.toNat then false
    else charsLt as bs

/-- JS `<` on strings. -/
def strLt (a b : String) : Bool :=
  charsLt a.data b.data

/-- The projected key a comparison in `_sortByString` actually uses:
the selector output, lowercased unless `caseSensitive`. -/
def sortKey {α : Type} (selector : α → String) (caseSensitive : Bool)
    (x : α) : String :=
  if caseSensitive then selector x else strToLower (selector x)

/-- The comparator closure passed to `array.sort` by `_sortByString`:
keys are lowercased unless `caseSensitive`, an empty left key sorts
after its counterpart (`1`), an empty right key before (`-1`), equal
keys give `0`, otherwise lexicographic order decides. -/
def sortComparator {α : Type} (selector : α → String) (caseSensitive : Bool)
    (a b : α) : Int :=
  let aString := sortKey selector caseSensitive a
  let bString := sortKey selector caseSensitive b
  if aString = "" then 1
  else if bString = "" then -1
  else if aString = bString then 0
  else if strLt aString bString then -1
  else 1

/-- Stable insertion of `x` into `l` guided by a JS-style three-way
comparator: `x` is placed before the first element it compares
strictly less than, after equal elements (stability). -/
def insertSorted {α : Type} (cmp : α → α → Int) (x : α) : List α → List α
  | [] => [x]
  | y :: ys => if cmp x y < 0 then x :: y :: ys else y :: insertSorted cmp x ys

/-- Model of `Array.prototype.sort(comparator)` as a stable comparison
sort (ES2019 requires the sort to be stable; for a consistent
comparator the stable sorted output is unique). -/
def jsSort {α : Type} (cmp : α → α → Int) (l : List α) : List α :=
  l.foldl (fun acc x => insertSorted cmp x acc) []

/-- `_sortByString` from collection-utils.ts: `array.sort` with
`sortComparator`; `caseSensitive` defaults to `false`. -/
def sortByString {α : Type} (array : List α) (selector : α → String)
    (caseSensitive : Bool := false) : List α :=
  jsSort (sortComparator selector caseSensitive) array

/-! ### Helper lemmas -/

/-- Pointwise emptiness test matching one iteration of the
`_isEmpty` loop. -/
def argEmpty {α : Type} : Option (SeqLike α) → Bool
  | none => true
  | some s => s.toList.isEmpty

lemma isEmpty_foldl_eq {α : Type} (l : List (Option (SeqLike α))) (acc : Bool) :
    l.foldl
      (fun acc collection =>
        match collection with
        | none => acc
        | some (.ilist d) => if d.length ≠ 0 then false else acc
        | some (.arr d) => if d.length ≠ 0 then false else acc)
      acc = (acc && l.all argEmpty) := by
  induction l generalizing acc with
  | nil => simp
  | cons c cs ih =>
    rw [List.foldl_cons, ih, List.all_cons]
    rcases c with _ | (d | d)
    · simp [argEmpty]
    · cases d <;> simp [argEmpty, SeqLike.toList, Bool.and_assoc]
    · cases d <;> simp [argEmpty, SeqLike.toList, Bool.and_assoc]

lemma isEmpty_eq_all {α : Type} (collections : List (Option (SeqLike α))) :
    isEmpty collections = collections.all argEmpty := by
  unfold isEmpty
  rw [isEmpty_foldl_eq]
  simp

lemma isEmpty_singleton {α : Type} (c : Option (SeqLike α)) :
    isEmpty [c] = argEmpty c := by
  rw [isEmpty_eq_all]
  simp

lemma hasValues_foldl_eq {α : Type} (l : List (Option (SeqLike α))) (acc : Bool) :
    l.foldl (fun acc collection => if !(isEmpty [collection]) then true else acc)
      acc = (acc || l.any fun c => !(argEmpty c)) := by
  induction l generalizing acc with
  | nil => simp
  | cons c cs ih =>
    rw [List.foldl_cons, ih, List.any_cons, isEmpty_singleton]
    cases h : argEmpty c <;> simp [Bool.or_assoc]

lemma hasValues_eq_not_isEmpty {α : Type}
    (collections : List (Option (SeqLike α))) :
    hasValues collections = !(isEmpty collections) := by
  unfold hasValues
  rw [hasValues_foldl_eq, isEmpty_eq_all]
  simp
  induction collections with
  | nil => simp
  | cons c cs ih => simp [List.any_cons, List.all_cons, ih, Bool.not_and]

lemma length_some {α : Type} (s : SeqLike α) :
    length (some s) = (s.toList.length : Int) := by
  cases s <;> rfl

lemma perm_any {α : Type} {l₁ l₂ : List α} (h : l₁.Perm l₂) (f : α → Bool) :
    l₁.any f = l₂.any f := by
  apply Bool.eq_iff_iff.mpr
  simp only [List.any_eq_true]
  constructor
  · rintro ⟨x, hx, hfx⟩
    exact ⟨x, h.mem_iff.mp hx, hfx⟩
  · rintro ⟨x, hx, hfx⟩
    exact ⟨x, h.mem_iff.mpr hx, hfx⟩

/-! ### Sort helper lemmas -/

lemma strToLower_eq_empty_iff (s : String) : strToLower s = "" ↔ s = "" := by
  rcases s with ⟨data⟩
  constructor
  · intro h
    have hdata : data.map Char.toLower = [] := congrArg String.data h
    rw [List.map_eq_nil_iff] at hdata
    exact congrArg String.mk hdata
  · intro h
    have hdata : data = [] := congrArg String.data h
    exact congrArg String.mk (by rw [hdata]; rfl)

lemma sortKey_eq_empty_iff {α : Type} (selector : α → String)
    (caseSensitive : Bool) (x : α) :
    sortKey selector caseSensitive x = "" ↔ selector x = "" := by
  cases caseSensitive <;>
    simp [sortKey, strToLower_eq_empty_iff]

lemma comparator_empty_left {α : Type} {selector : α → String}
    {caseSensitive : Bool} {a : α}
    (h : sortKey selector caseSensitive a = "") (b : α) :
    sortComparator selector caseSensitive a b = 1 := by
  simp [sortComparator, h]

lemma comparator_nonempty_empty {α : Type} {selector : α → String}
    {caseSensitive : Bool} {a b : α}
    (ha : sortKey selector caseSensitive a ≠ "")
    (hb : sortKey selector caseSensitive b = "") :
    sortComparator selector caseSensitive a b = -1 := by
  simp [sortComparator, ha, hb]

lemma insert_empty_key {α : Type} (selector : α → String)
    (caseSensitive : Bool) (x : α)
    (hx : sortKey selector caseSensitive x = "") (l : List α) :
    insertSorted (sortComparator selector caseSensitive) x l = l ++ [x] := by
  induction l with
  | nil => rfl
  | cons y ys ih =>
    rw [insertSorted, comparator_empty_left hx y, if_neg (by omega),
      ih, List.cons_append]

lemma insert_nonempty_key {α : Type} (selector : α → String)
    (caseSensitive : Bool) (x : α)
    (hx : sortKey selector caseSensitive x ≠ "") :
    ∀ A B : List α, (∀ b ∈ B, sortKey selector caseSensitive b = "") →
      ∃ A', insertSorted (sortComparator selector caseSensitive) x (A ++ B)
          = A' ++ B
        ∧ ∀ y ∈ A', y = x ∨ y ∈ A := by
  intro A
  induction A with
  | nil =>
    intro B hB
    refine ⟨[x], ?_, by simp⟩
    rcases B with _ | ⟨b, bs⟩
    · rfl
    · rw [List.nil_append, insertSorted,
        comparator_nonempty_empty hx (hB b (by simp)), if_pos (by omega)]
      rfl
  | cons a as ih =>
    intro B hB
    rw [List.cons_append, insertSorted]
    by_cases hc : sortComparator selector caseSensitive x a < 0
    · refine ⟨x :: a :: as, by rw [if_pos hc]; simp, ?_⟩
      intro y hy
      rcases List.mem_cons.mp hy with h | h
      · exact Or.inl h
      · exact Or.inr h
    · obtain ⟨A', hEq, hMem⟩ := ih B hB
      refine ⟨a :: A', by rw [if_neg hc, hEq]; rfl, ?_⟩
      intro y hy
      rcases List.mem_cons.mp hy with h | h
      · exact Or.inr (by simp [h])
      · rcases hMem y h with h' | h'
        · exact Or.inl h'
        · exact Or.inr (by simp [h'])

lemma foldl_insert_partition {α : Type} (selector : α → String)
    (caseSensitive : Bool) :
    ∀ array A B : List α,
      (∀ a ∈ A, sortKey selector caseSensitive a ≠ "") →
      (∀ b ∈ B, sortKey selector caseSensitive b = "") →
      ∃ A' B',
        array.foldl
          (fun acc x => insertSorted (sortComparator selector caseSensitive)
            x acc) (A ++ B) = A' ++ B'
        ∧ (∀ a ∈ A', sortKey selector caseSensitive a ≠ "")
        ∧ (∀ b ∈ B', sortKey selector caseSensitive b = "") := by
  intro array
  induction array with
  | nil =>
    intro A B hA hB
    exact ⟨A, B, rfl, hA, hB⟩
  | cons x xs ih =>
    intro A B hA hB
    rw [List.foldl_cons]
    by_cases hx : sortKey selector caseSensitive x = ""
    · rw [insert_empty_key selector caseSensitive x hx, List.append_assoc]
      exact ih A (B ++ [x]) hA (by
        intro b hb
        rcases List.mem_append.mp hb with h | h
        · exact hB b h
        · rw [List.mem_singleton.mp h]
          exact hx)
    · obtain ⟨A', hEq, hMem⟩ :=
        insert_nonempty_key selector caseSensitive x hx A B hB
      rw [hEq]
      exact ih A' B (by
        intro y hy
        rcases hMem y hy with h | h
        · rw [h]
          exact hx
        · exact hA y h) hB

/-! ### Claim theorems -/

/-- C5: `length` returns `-1` on an absent input, the size of an
Immutable list, and the element count of a plain array; it never
fails on an absent input. -/
theorem length_spec {α : Type} (l : List α) :
    length (none : Option (SeqLike α)) = -1
    ∧ length (some (SeqLike.ilist l)) = (l.length : Int)
    ∧ length (some (SeqLike.arr l)) = (l.length : Int) :=
  ⟨rfl, rfl, rfl⟩

/-- C4: `isNotEmpty` is the boolean negation of `isEmpty`, and the
independently implemented `hasValues` loop agrees with `isNotEmpty`
on every argument list. -/
theorem isNotEmpty_hasValues_agree {α : Type}
    (collections : List (Option (SeqLike α))) :
    isNotEmpty collections = !(isEmpty collections)
    ∧ hasValues collections = isNotEmpty collections := by
  refine ⟨rfl, ?_⟩
  rw [hasValues_eq_not_isEmpty]
  rfl

/-- C3: `isEmpty` returns `true` iff every provided argument is absent
or has zero elements; with zero arguments it returns `true`; on `[]`
it returns `true`; and it returns `false` whenever any argument
(array or Immutable list, also mixed in one call) has an element. -/
theorem isEmpty_spec {α : Type} (collections : List (Option (SeqLike α)))
    (c : Option (SeqLike α)) (s : SeqLike α) (x : α)
    (hmem : c ∈ collections) (hc : c = some s) (hx : x ∈ s.toList) :
    isEmpty collections = false
    ∧ (∀ ds : List (Option (SeqLike α)),
        (isEmpty ds = true ↔ ∀ d ∈ ds, ∀ t, d = some t → t.toList = []))
    ∧ isEmpty ([] : List (Option (SeqLike Nat))) = true
    ∧ isEmpty [some (SeqLike.arr ([] : List Nat))] = true
    ∧ isEmpty [some (SeqLike.arr ([] : List Nat)), some (SeqLike.ilist [5])]
        = false := by
  refine ⟨?_, ?_, by decide, by decide, by decide⟩
  · rw [isEmpty_eq_all]
    have hfalse : argEmpty c = false := by
      subst hc
      simp only [argEmpty, List.isEmpty_eq_false_iff_exists_mem]
      exact ⟨x, hx⟩
    cases hall : collections.all argEmpty with
    | false => rfl
    | true =>
      exfalso
      have htrue := (List.all_eq_true.mp hall) c hmem
      rw [hfalse] at htrue
      exact Bool.false_ne_true htrue
  · intro ds
    rw [isEmpty_eq_all, List.all_eq_true]
    constructor
    · intro h d hd t hdt
      have := h d hd
      rw [hdt] at this
      simpa [argEmpty, List.isEmpty_iff] using this
    · intro h d hd
      rcases d with _ | t
      · rfl
      · simpa [argEmpty, List.isEmpty_iff] using h (some t) hd t rfl

/-- Witness for `isEmpty_spec` at a concrete call. -/
theorem isEmpty_spec_witness :
    isEmpty [some (SeqLike.arr [7]), none] = false :=
  (isEmpty_spec [some (SeqLike.arr [7]), none] (some (SeqLike.arr [7]))
    (SeqLike.arr [7]) 7 (by decide) rfl (by decide)).1

/-- C6: `removeElementAt` returns the source unchanged when the index
is negative or strictly greater than the length, is a no-op at
`index = length`, and otherwise removes exactly the element at the
index; `removeElementAt [1,2,3] 1 = [1,3]`. -/
theorem removeElementAt_spec {α : Type} (source : List α) (index : Int) :
    ((index < 0 ∨ (source.length : Int) < index) →
      removeElementAt source index = source)
    ∧ (index = (source.length : Int) → removeElementAt source index = source)
    ∧ (∀ i : Nat, index = (i : Int) → i < source.length →
        removeElementAt source index = source.eraseIdx i)
    ∧ removeElementAt [1, 2, 3] 1 = [1, 3] := by
  refine ⟨?_, ?_, ?_, by decide⟩
  · intro h
    rw [removeElementAt, if_pos h]
  · intro h
    subst h
    rw [removeElementAt, if_neg (by simp), Int.toNat_natCast,
      List.take_length, List.drop_eq_nil_of_le (by omega), List.append_nil]
  · intro i hi hlt
    subst hi
    rw [removeElementAt, if_neg (by simp; omega), Int.toNat_natCast,
      List.eraseIdx_eq_take_drop_succ]

/-- Witness for `removeElementAt_spec` at concrete calls. -/
theorem removeElementAt_spec_witness :
    removeElementAt ([1, 2, 3] : List Nat) (-1) = [1, 2, 3]
    ∧ removeElementAt ([1, 2, 3] : List Nat) 3 = [1, 2, 3]
    ∧ removeElementAt ([1, 2, 3] : List Nat) 1 = ([1, 2, 3] : List Nat).eraseIdx 1 :=
  ⟨(removeElementAt_spec [1, 2, 3] (-1)).1 (by decide),
   (removeElementAt_spec [1, 2, 3] 3).2.1 (by decide),
   (removeElementAt_spec [1, 2, 3] 1).2.2.1 1 (by decide) (by decide)⟩

/-- C7: `replaceElementAt` returns the source unchanged on an empty
source or negative index, `[value]` on any one-element source with a
nonnegative index, the prefix before the index followed by `value`
when the index is the last valid position, and otherwise the prefix,
`value`, then the suffix after the index; it never mutates the
source (the model is pure). -/
theorem replaceElementAt_spec {α : Type} (source : List α) (index : Int)
    (value : α) :
    ((source = [] ∨ index < 0) → replaceElementAt source index value = source)
    ∧ (∀ x, source = [x] → 0 ≤ index →
        replaceElementAt source index value = [value])
    ∧ (0 ≤ index → index = (source.length : Int) - 1 →
        replaceElementAt source index value
          = source.take index.toNat ++ [value])
    ∧ (2 ≤ source.length → 0 ≤ index → index ≠ (source.length : Int) - 1 →
        replaceElementAt source index value
          = source.take index.toNat ++ value :: source.drop (index.toNat + 1))
    ∧ replaceElementAt ([] : List Nat) 0 9 = []
    ∧ replaceElementAt [1] 0 9 = [9]
    ∧ replaceElementAt [1, 2, 3] 2 9 = [1, 2, 9]
    ∧ replaceElementAt [1, 2, 3] 1 9 = [1, 9, 3] := by
  refine ⟨?_, ?_, ?_, ?_, by decide, by decide, by decide, by decide⟩
  · intro h
    rw [replaceElementAt, if_pos]
    rcases h with h | h
    · exact Or.inl (by simp [h])
    · exact Or.inr h
  · intro x hx hpos
    subst hx
    rw [replaceElementAt, if_neg (by simp; omega)]
    simp
  · intro hpos hlast
    rcases hlen : source.length with _ | n
    · exfalso
      rw [hlen] at hlast
      omega
    · rcases n with _ | m
      · have hidx : index = 0 := by rw [hlen] at hlast; omega
        subst hidx
        rcases source with _ | ⟨y, ys⟩
        · simp at hlen
        · have : ys = [] := by
            simpa using hlen
          subst this
          rw [replaceElementAt, if_neg (by simp)]
          simp
      · rw [replaceElementAt, if_neg (by omega), if_neg (by omega),
          if_pos hlast]
  · intro h2 hpos hne
    rw [replaceElementAt, if_neg (by omega), if_neg (by omega), if_neg hne]

/-- Witness for `replaceElementAt_spec` at concrete calls. -/
theorem replaceElementAt_spec_witness :
    replaceElementAt ([] : List Nat) (-2) 9 = []
    ∧ replaceElementAt ([5] : List Nat) 3 9 = [9]
    ∧ replaceElementAt ([1, 2, 3] : List Nat) 2 9
        = ([1, 2, 3] : List Nat).take 2 ++ [9]
    ∧ replaceElementAt ([1, 2, 3] : List Nat) 1 9
        = ([1, 2, 3] : List Nat).take 1 ++ 9 :: ([1, 2, 3] : List Nat).drop 2 :=
  ⟨(replaceElementAt_spec ([] : List Nat) (-2) 9).1 (Or.inl rfl),
   (replaceElementAt_spec [5] 3 9).2.1 5 rfl (by decide),
   by
     have h := (replaceElementAt_spec ([1, 2, 3] : List Nat) 2 9).2.2.1
       (by decide) (by decide)
     simpa using h,
   by
     have h := (replaceElementAt_spec ([1, 2, 3] : List Nat) 1 9).2.2.2.1
       (by decide) (by decide) (by decide)
     simpa using h⟩

/-- C10: on a source with at least two elements and an index at or
beyond the length, `replaceElementAt` appends `value` at the end:
the result is `source ++ [value]`, one element longer, replacing
nothing. -/
theorem replaceElementAt_overflow_appends {α : Type} (source : List α)
    (index : Int) (value : α) (h2 : 2 ≤ source.length)
    (hi : (source.length : Int) ≤ index) :
    replaceElementAt source index value = source ++ [value]
    ∧ (replaceElementAt source index value).length = source.length + 1 := by
  have heq : replaceElementAt source index value = source ++ [value] := by
    rw [replaceElementAt, if_neg (by omega), if_neg (by omega),
      if_neg (by omega), List.take_of_length_le (by omega),
      List.drop_eq_nil_of_le (by omega)]
  exact ⟨heq, by rw [heq]; simp⟩

/-- Witness for `replaceElementAt_overflow_appends` at a concrete call. -/
theorem replaceElementAt_overflow_appends_witness :
    replaceElementAt ([1, 2] : List Nat) 5 9 = [1, 2] ++ [9]
    ∧ (replaceElementAt ([1, 2] : List Nat) 5 9).length = 3 :=
  replaceElementAt_overflow_appends [1, 2] 5 9 (by decide) (by decide)

/-- C9: the core operations are total Lean functions on their
documented inputs: absent collections, empty collections, and
out-of-range indices all yield the documented sentinel or normal
results (`-1`, booleans, unchanged source) rather than failing. -/
theorem core_operations_total {α V : Type} [DecidableEq V] (selector : α → V)
    (s : SeqLike α) (source : List α) (index : Int) (value : α)
    (hneg : index < 0) :
    length (none : Option (SeqLike α)) = -1
    ∧ equalsBy selector none none = true
    ∧ equalsBy selector (some s) none = false
    ∧ isEmpty ([] : List (Option (SeqLike α))) = true
    ∧ isNotEmpty ([] : List (Option (SeqLike α))) = false
    ∧ hasValues ([] : List (Option (SeqLike α))) = false
    ∧ removeElementAt source index = source
    ∧ removeElementAt source ((source.length : Int) + 1) = source
    ∧ replaceElementAt source index value = source
    ∧ replaceElementAt ([] : List α) 0 value = [] := by
  refine ⟨rfl, rfl, rfl, rfl, rfl, rfl, ?_, ?_, ?_, ?_⟩
  · rw [removeElementAt, if_pos (Or.inl hneg)]
  · rw [removeElementAt, if_pos (Or.inr (by omega))]
  · rw [replaceElementAt, if_pos (Or.inr hneg)]
  · simp [replaceElementAt]

/-- Witness for `core_operations_total` at a concrete call. -/
theorem core_operations_total_witness :
    length (none : Option (SeqLike Nat)) = -1
    ∧ equalsBy (fun n : Nat => n) none none = true
    ∧ equalsBy (fun n : Nat => n) (some (SeqLike.arr [1])) none = false
    ∧ isEmpty ([] : List (Option (SeqLike Nat))) = true
    ∧ isNotEmpty ([] : List (Option (SeqLike Nat))) = false
    ∧ hasValues ([] : List (Option (SeqLike Nat))) = false
    ∧ removeElementAt ([1] : List Nat) (-2) = [1]
    ∧ removeElementAt ([1] : List Nat) ((1 : Int) + 1) = [1]
    ∧ replaceElementAt ([1] : List Nat) (-2) 7 = [1]
    ∧ replaceElementAt ([] : List Nat) 0 7 = [] :=
  core_operations_total (fun n : Nat => n) (SeqLike.arr [1]) [1] (-2) 7
    (by decide)

/-- C1: `equalsBy` follows exactly the documented case analysis:
absent/absent is `true`, present/absent is `false`, differing
`length`s give `false`, and otherwise the result is the symmetric
double containment of projected values. -/
theorem equalsBy_case_analysis {α V : Type} [DecidableEq V]
    (selector : α → V) (seqA seqB : Option (SeqLike α)) :
    equalsBy selector seqA seqB =
      match seqA, seqB with
      | none, none => true
      | none, some _ => false
      | some _, none => false
      | some a, some b =>
        if length (some a) ≠ length (some b) then false
        else
          decide ((∀ s ∈ a.toList, ∃ ss ∈ b.toList, selector s = selector ss)
            ∧ (∀ s ∈ b.toList, ∃ ss ∈ a.toList, selector s = selector ss)) := by
  rcases seqA with _ | a
  · rcases seqB with _ | b <;> rfl
  · rcases seqB with _ | b
    · rfl
    · show (if length (some a) ≠ length (some b) then false else _)
        = (if length (some a) ≠ length (some b) then false else _)
      by_cases hlen : length (some a) ≠ length (some b)
      · rw [if_pos hlen, if_pos hlen]
      · rw [if_neg hlen, if_neg hlen]
        apply Bool.eq_iff_iff.mpr
        simp only [Bool.not_eq_true', Bool.not_or, Bool.and_eq_true,
          Bool.not_eq_false, List.any_eq_false, List.any_eq_true,
          Bool.not_eq_true, decide_eq_true_eq, not_exists, not_and]
        constructor
        · rintro ⟨h1, h2⟩
          constructor
          · intro s hs
            have := h1 s hs
            simpa [List.any_eq_true] using this
          · intro s hs
            have := h2 s hs
            simpa [List.any_eq_true] using this
        · rintro ⟨h1, h2⟩
          constructor
          · intro s hs
            simpa [List.any_eq_true] using h1 s hs
          · intro s hs
            simpa [List.any_eq_true] using h2 s hs

/-- C2: `equalsBy` uses containment semantics, not multiset equality:
`[1,1,2]` and `[1,2,2]` compare equal under the identity selector,
`[1,2]` and `[2,1]` compare equal, and the result is invariant under
any permutation of the elements of either argument. -/
theorem equalsBy_perm_invariant {α V : Type} [DecidableEq V]
    (selector : α → V) (s1 s1' s2 s2' : SeqLike α)
    (h1 : s1.toList.Perm s1'.toList) (h2 : s2.toList.Perm s2'.toList) :
    equalsBy selector (some s1) (some s2)
      = equalsBy selector (some s1') (some s2')
    ∧ equalsBy (fun n : Nat => n) (some (SeqLike.arr [1, 1, 2]))
        (some (SeqLike.arr [1, 2, 2])) = true
    ∧ equalsBy (fun n : Nat => n) (some (SeqLike.arr [1, 2]))
        (some (SeqLike.arr [2, 1])) = true := by
  refine ⟨?_, by decide, by decide⟩
  show (if length (some s1) ≠ length (some s2) then false else _)
    = (if length (some s1') ≠ length (some s2') then false else _)
  rw [length_some, length_some, length_some, length_some,
    h1.length_eq, h2.length_eq]
  by_cases hlen : (s1'.toList.length : Int) ≠ (s2'.toList.length : Int)
  · rw [if_pos hlen, if_pos hlen]
  · rw [if_neg hlen, if_neg hlen]
    have inner2 : (fun s => !(s2.toList.any
        fun ss => decide (selector s = selector ss)))
        = (fun s => !(s2'.toList.any
        fun ss => decide (selector s = selector ss))) := by
      funext s
      rw [perm_any h2]
    have inner1 : (fun s => !(s1.toList.any
        fun ss => decide (selector s = selector ss)))
        = (fun s => !(s1'.toList.any
        fun ss => decide (selector s = selector ss))) := by
      funext s
      rw [perm_any h1]
    rw [inner1, inner2, perm_any h1, perm_any h2]

/-- Witness for `equalsBy_perm_invariant` at a concrete call. -/
theorem equalsBy_perm_invariant_witness :
    equalsBy (fun n : Nat => n) (some (SeqLike.arr [1, 2]))
        (some (SeqLike.ilist [3, 4]))
      = equalsBy (fun n : Nat => n) (some (SeqLike.arr [2, 1]))
        (some (SeqLike.ilist [4, 3]))
    ∧ equalsBy (fun n : Nat => n) (some (SeqLike.arr [1, 1, 2]))
        (some (SeqLike.arr [1, 2, 2])) = true
    ∧ equalsBy (fun n : Nat => n) (some (SeqLike.arr [1, 2]))
        (some (SeqLike.arr [2, 1])) = true :=
  equalsBy_perm_invariant (fun n : Nat => n) (SeqLike.arr [1, 2])
    (SeqLike.arr [2, 1]) (SeqLike.ilist [3, 4]) (SeqLike.ilist [4, 3])
    (by decide) (by decide)

/-- C8: `sortByString` with the default `caseSensitive = false`
compares lowercased keys (it agrees with the case-sensitive sort of
the lowercased selector); in every output, elements whose projected
key is empty come after all elements with a non-empty key, for either
case-sensitivity setting; sorting `[("b",1), ("A",2)]` by the first
component case-insensitively yields `[("A",2), ("b",1)]`; and an
element whose selector returns `""` is placed last under both
settings. -/
theorem sortByString_spec {α : Type} (array : List α)
    (selector : α → String) (caseSensitive : Bool) :
    sortByString array selector false
      = sortByString array (fun x => strToLower (selector x)) true
    ∧ (∃ A B, sortByString array selector caseSensitive = A ++ B
        ∧ (∀ a ∈ A, selector a ≠ "") ∧ (∀ b ∈ B, selector b = ""))
    ∧ sortByString [("b", 1), ("A", 2)] (fun p : String × Nat => p.1)
        = [("A", 2), ("b", 1)]
    ∧ sortByString ["x", "", "y"] (fun s => s) false = ["x", "y", ""]
    ∧ sortByString ["x", "", "y"] (fun s => s) true = ["x", "y", ""] := by
  refine ⟨?_, ?_, by decide, by decide, by decide⟩
  · have hcmp : sortComparator selector false
        = sortComparator (fun x => strToLower (selector x)) true := by
      funext a b
      rfl
    rw [sortByString, sortByString, hcmp]
  · obtain ⟨A, B, hEq, hA, hB⟩ :=
      foldl_insert_partition selector caseSensitive array [] []
        (by intro a ha; cases ha) (by intro b hb; cases hb)
    refine ⟨A, B, ?_, ?_, ?_⟩
    · rw [sortByString, jsSort]
      exact hEq
    · intro a ha
      exact fun h =>
        hA a ha ((sortKey_eq_empty_iff selector caseSensitive a).mpr h)
    · intro b hb
      exact (sortKey_eq_empty_iff selector caseSensitive b).mp (hB b hb)

end CollectionUtils
